import Mathlib

/-!
Verification of the backtesting engine (`src/backtesting/backtester.py`) and the
performance-metrics reporter (`src/backtesting/performance_metrics.py`).

Modelling conventions:
* pandas `Timestamp`s are minutes since an epoch, as `Int`; a calendar date is
  the floor-division of a timestamp by 1440 and a time of day its remainder
  (the data is minute-frequency).
* python floats are embedded as exact rationals `ℚ`.
* the trade-action strings `'BUY' / 'SELL' / 'CLOSE'` become an inductive type.
* a function that can fall off the end of a `try` block (returning python
  `None`) is given result type `Option Bool`: `some true / some false` are the
  explicit returns, `none` is python's implicit `None`.
* the price table `data` is the ordered list of `(timestamp, price)` pairs;
  `data.loc[t]` is first-match lookup and `data.index.get_loc` a first-match
  position search, as in pandas for a unique index.
-/

namespace Backtest

/-- minutes in a calendar day. -/
def minutesPerDay : Int := 1440

/-- calendar date (day number) of a timestamp, python `Timestamp.date()`. -/
def dateOf (t : Int) : Int := t / minutesPerDay

/-- time of day in minutes, python `Timestamp.time()`. -/
def timeOfDay (t : Int) : Int := t % minutesPerDay

/-- the `action` field of a trade record: `'BUY'`, `'SELL'` or `'CLOSE'`. -/
inductive Action where
  | BUY
  | SELL
  | CLOSE
deriving DecidableEq

/-- the three actions are pairwise distinct; stated as rewrite rules so that
concrete states evaluate. -/
theorem buy_ne_sell : Action.BUY ≠ Action.SELL := by decide

theorem buy_ne_close : Action.BUY ≠ Action.CLOSE := by decide

theorem sell_ne_buy : Action.SELL ≠ Action.BUY := by decide

theorem sell_ne_close : Action.SELL ≠ Action.CLOSE := by decide

theorem close_ne_buy : Action.CLOSE ≠ Action.BUY := by decide

theorem close_ne_sell : Action.CLOSE ≠ Action.SELL := by decide

attribute [simp] buy_ne_sell buy_ne_close sell_ne_buy sell_ne_close close_ne_buy close_ne_sell

/-- a trade record appended to `trade_log` (the dict
`{'time', 'action', 'price', 'capital'}`). -/
structure Trade where
  time : Int
  action : Action
  price : ℚ
  capital : ℚ
deriving DecidableEq

/-- the strategy interface (`base_strategy.Strategy`): two boolean signal
functions over timestamps. -/
structure Strategy where
  shouldBuy : Int → Bool
  shouldSell : Int → Bool

/-- the mutable state of `backtester.Backtester`.  The source's field
`short_ratio` is embedded as `short_frac`. -/
structure Backtester where
  strategy : Strategy
  data : List (Int × ℚ)
  initial_capital : ℚ
  capital : ℚ
  commission : ℚ
  trade_log : List Trade
  current_index : Option Int
  current_date : Option Int
  position_close_time : List Int
  trade_returns : List ℚ
  trade_returns_percentage : List ℚ
  close_time_delta : Int
  exchange_close_time : Int
  pending_trades : List (Int × Action)
  short_frac : ℚ

/-- `Backtester.__init__`: `exchange_close_time` is `16:00` (960 minutes) and
the short ratio `0.5`. -/
def Backtester.init (strategy : Strategy) (data : List (Int × ℚ))
    (initial_capital commission : ℚ) (close_time_delta : Int) : Backtester where
  strategy := strategy
  data := data
  initial_capital := initial_capital
  capital := initial_capital
  commission := commission
  trade_log := []
  current_index := none
  current_date := none
  position_close_time := []
  trade_returns := []
  trade_returns_percentage := []
  close_time_delta := close_time_delta
  exchange_close_time := 960
  pending_trades := []
  short_frac := 1 / 2

/-- `float(self.data.loc[t].iloc[0])`: price at a timestamp, `none` when the
timestamp is absent (pandas `KeyError`). -/
def priceAt (data : List (Int × ℚ)) (t : Int) : Option ℚ :=
  (data.find? (fun p => decide (p.1 = t))).map Prod.snd

/-- `Backtester.next`: advance the clock.  Returns the new state and the
boolean result; the `IndexError` on an empty series and an unlocatable
current timestamp both yield `false` with no mutation. -/
def Backtester.next (s : Backtester) : Backtester × Bool :=
  match s.current_index with
  | none =>
    match s.data with
    | [] => (s, false)
    | (t, _) :: _ =>
      ({ s with current_index := some t, current_date := some (dateOf t) }, true)
  | some cur =>
    match (s.data.map Prod.fst).findIdx? (fun x => decide (x = cur)) with
    | none => (s, false)
    | some pos =>
      if pos < s.data.length - 1 then
        match s.data[pos + 1]? with
        | some (t, _) =>
          ({ s with current_index := some t, current_date := some (dateOf t) }, true)
        | none => (s, false)
      else (s, false)

/-- `Backtester.open_position`: result `some true / some false` for the
explicit returns, `none` for the implicit `None` after a caught
`KeyError`.  The `action` argument `CLOSE` (impossible from `check_strategy`)
falls through all branches, another implicit `None`. -/
def Backtester.open_position (s : Backtester) (action : Action) (quantity : ℚ) :
    Backtester × Option Bool :=
  match s.current_index.bind (priceAt s.data) with
  | Option.none => (s, Option.none)
  | some price =>
    match s.current_index with
    | Option.none => (s, Option.none)
    | some cur =>
      match action with
      | Action.BUY =>
        if s.capital - (price * quantity) - s.commission > 0 then
          let cap := s.capital - ((price * quantity) + s.commission)
          ({ s with capital := cap
                  , trade_log := s.trade_log ++ [⟨cur, Action.BUY, price, cap⟩] },
           some true)
        else (s, some false)
      | Action.SELL =>
        if s.capital - (price * quantity * s.short_frac) - s.commission > 0 then
          let cap := s.capital - ((price * quantity * s.short_frac) + s.commission)
          ({ s with capital := cap
                  , trade_log := s.trade_log ++ [⟨cur, Action.SELL, price, cap⟩] },
           some true)
        else (s, some false)
      | Action.CLOSE => (s, Option.none)

/-- `Backtester.update_position_close_time`: a trade opened at or after
`exchange_close_time - close_time_delta` (compared as times of day) becomes a
pending trade, otherwise its close is scheduled `close_time_delta` minutes
ahead.  Called only with `current_index` set; `none` leaves the state
unchanged. -/
def Backtester.update_position_close_time (s : Backtester) (action : Action) :
    Backtester :=
  match s.current_index with
  | none => s
  | some cur =>
    if timeOfDay cur ≥ (s.exchange_close_time - s.close_time_delta) % minutesPerDay then
      { s with pending_trades := s.pending_trades ++ [(cur, action)] }
    else
      { s with position_close_time := s.position_close_time ++ [cur + s.close_time_delta] }

/-- `Backtester.check_strategy`: LONG checked first; a successful open
schedules or defers the close. -/
def Backtester.check_strategy (s : Backtester) : Backtester × Bool :=
  match s.current_index with
  | none => (s, false)
  | some cur =>
    if s.strategy.shouldBuy cur then
      match s.open_position Action.BUY 1 with
      | (s', some true) => (s'.update_position_close_time Action.BUY, true)
      | (s', _) => (s', false)
    else if s.strategy.shouldSell cur then
      match s.open_position Action.SELL 1 with
      | (s', some true) => (s'.update_position_close_time Action.SELL, true)
      | (s', _) => (s', false)
    else (s, false)

/-- `Backtester.get_trade_by_time`: first trade of the log at the given time
whose action is not `CLOSE`; the caught `ValueError` makes the python
function return `{}`, embedded as `none`. -/
def Backtester.get_trade_by_time (s : Backtester) (time : Int) : Option Trade :=
  s.trade_log.find? (fun tr => decide (tr.time = time ∧ tr.action ≠ Action.CLOSE))

/-- `Backtester.close_trade`: credit capital, append the `CLOSE` record and
both return records.  An action other than `BUY`/`SELL` raises a
`ValueError` that is caught internally: no mutation. -/
def Backtester.close_trade (s : Backtester) (action : Action) (close_time : Int)
    (close_price open_trade_price quantity : ℚ) : Backtester :=
  match action with
  | Action.BUY =>
    let cap := s.capital + (close_price * quantity - s.commission)
    { s with capital := cap
           , trade_log := s.trade_log ++ [⟨close_time, Action.CLOSE, close_price, cap⟩]
           , trade_returns := s.trade_returns ++ [close_price - open_trade_price]
           , trade_returns_percentage :=
               s.trade_returns_percentage ++
                 [(close_price - open_trade_price) * 100 / open_trade_price] }
  | Action.SELL =>
    let cap := s.capital + (close_price * quantity * s.short_frac - s.commission)
    { s with capital := cap
           , trade_log := s.trade_log ++ [⟨close_time, Action.CLOSE, close_price, cap⟩]
           , trade_returns := s.trade_returns ++ [open_trade_price - close_price]
           , trade_returns_percentage :=
               s.trade_returns_percentage ++
                 [(open_trade_price - close_price) * 100 / open_trade_price] }
  | Action.CLOSE => s

/-- `Backtester.close_position`: missing close price (`get_close_price`'s
`ValueError`) or a failed trade lookup (`KeyError` on `{}['action']`) is
caught: no mutation. -/
def Backtester.close_position (s : Backtester) (close_time : Int) (quantity : ℚ) :
    Backtester :=
  match priceAt s.data close_time with
  | none => s
  | some close_price =>
    match s.get_trade_by_time (close_time - s.close_time_delta) with
    | none => s
    | some tr => s.close_trade tr.action close_time close_price tr.price quantity

/-- `Backtester.close_pending_position`: as `close_position` but the open time
is given instead of derived. -/
def Backtester.close_pending_position (s : Backtester) (close_time open_time : Int)
    (quantity : ℚ) : Backtester :=
  match priceAt s.data close_time with
  | none => s
  | some close_price =>
    match s.get_trade_by_time open_time with
    | none => s
    | some tr => s.close_trade tr.action close_time close_price tr.price quantity

/-- `Backtester.settle_pending_positions`: close every pending trade (iterating
over a copy of the list) at the current timestamp, then the removals leave the
pending list empty.  An unset `current_index` makes every close a caught
lookup failure. -/
def Backtester.settle_pending_positions (s : Backtester) : Backtester :=
  let s1 := s.pending_trades.foldl
    (fun st pt =>
      match st.current_index with
      | none => st
      | some cur => st.close_pending_position cur pt.1 1) s
  { s1 with pending_trades := [] }

/-- the scheduled-close step of the loop body
(`if self.current_index in self.position_close_time`): the removal of the
timestamp happens after the close attempt and is unconditional once the
branch is entered, because `close_position` catches every exception. -/
def Backtester.closePhase (s : Backtester) : Backtester :=
  match s.current_index with
  | none => s
  | some cur =>
    if cur ∈ s.position_close_time then
      let sc := s.close_position cur 1
      { sc with position_close_time := sc.position_close_time.erase cur }
    else s

/-- the settlement step of the loop body: driven solely by the date of the
first pending trade (`self.pending_trades[0]`). -/
def Backtester.settlePhase (s : Backtester) : Backtester :=
  match s.pending_trades, s.current_date with
  | pt :: _, some d =>
    if dateOf pt.1 = d - 1 then s.settle_pending_positions else s
  | _, _ => s

/-- one iteration of the `run` loop body, after `next` returned `true`:
strategy check, scheduled-close check, then the pending-settlement check. -/
def Backtester.stepBody (s : Backtester) : Backtester :=
  ((s.check_strategy).1.closePhase).settlePhase

/-- fuelled unfolding of `while self.next(): <body>`. -/
def Backtester.runAux : Nat → Backtester → Backtester
  | 0, s => s
  | n + 1, s =>
    match s.next with
    | (s1, true) => Backtester.runAux n s1.stepBody
    | (s1, false) => s1

/-- `Backtester.run`: the clock yields `true` at most `data.length` times
(the position after the seating step strictly increases), so
`data.length + 1` calls of `next` exhaust the loop. -/
def Backtester.run (s : Backtester) : Backtester :=
  Backtester.runAux (s.data.length + 1) s

/-!
The metrics reporter (`performance_metrics.PerformanceMetrics`).

Numpy value semantics: `np.mean`/`np.std` of an empty sequence return `nan`
(a warning, not an exception), and division of numpy scalars by zero returns
`inf`/`-inf`/`nan` (again no exception), while plain python division by zero
raises `ZeroDivisionError`.  A finite `mean/std` or `std` value is irrational
in general (a square root), so it is kept symbolically: `meanStd μ v` stands
for `μ / √v` and `sqrtOf v` for `√v`, each with `v ≠ 0`; the zero/nan-ness of
these values is all the source's guards inspect.
-/

/-- a numpy float value. -/
inductive NpVal where
  | nan
  | inf
  | ninf
  | num (q : ℚ)
  | meanStd (mu v : ℚ)
  | sqrtOf (v : ℚ)
deriving DecidableEq

/-- arithmetic mean of a list of rationals (`np.mean` on a nonempty list). -/
def listMean (l : List ℚ) : ℚ := l.sum / l.length

/-- population variance (`np.std` squared, numpy default `ddof = 0`). -/
def listVar (l : List ℚ) : ℚ :=
  ((l.map (fun x => (x - listMean l) ^ 2)).sum) / l.length

/-- `np.std l`: `nan` on the empty list, else `√(listVar l)`. -/
def npStdVal (l : List ℚ) : NpVal :=
  if l = [] then NpVal.nan
  else if listVar l = 0 then NpVal.num 0
  else NpVal.sqrtOf (listVar l)

/-- python truth value of `std(l) != 0`; note `nan != 0` is `True`. -/
def npStdNeZero (l : List ℚ) : Bool :=
  if l = [] then true else decide (listVar l ≠ 0)

/-- `mean(x) / std(y)` on numpy scalars: `nan` when either operand is `nan`
(either list empty), signed infinity or `nan` when `std(y) = 0`, else the
symbolic finite value. -/
def npMeanDivStd (x y : List ℚ) : NpVal :=
  if x = [] ∨ y = [] then NpVal.nan
  else if listVar y = 0 then
    if 0 < listMean x then NpVal.inf
    else if listMean x < 0 then NpVal.ninf
    else NpVal.nan
  else NpVal.meanStd (listMean x) (listVar y)

/-- plain python division: `none` models a raised `ZeroDivisionError`. -/
def pyDiv (a b : ℚ) : Option ℚ := if b = 0 then none else some (a / b)

/-- python `max(l, default=0)`. -/
def pyMaxD (l : List ℚ) : ℚ :=
  match l with
  | [] => 0
  | x :: xs => xs.foldl max x

/-- python `min(l, default=0)`. -/
def pyMinD (l : List ℚ) : ℚ :=
  match l with
  | [] => 0
  | x :: xs => xs.foldl min x

/-- constructor state of `PerformanceMetrics` (`risk_free_rate` defaults to
`0.02`). -/
structure PerformanceMetrics where
  initial_capital : ℚ
  final_capital : ℚ
  trade_returns : List ℚ
  trade_returns_percentage : List ℚ
  commission : ℚ
  trade_log : List Trade
  open_positions : List (Int × Action)
  risk_free_rate : ℚ
deriving DecidableEq

/-- the dictionary returned by `calculate_metrics`.  The source's keys
`risk_reward_ratio`, `sharpe_ratio` and `sortino_ratio` are embedded as
`risk_reward`, `sharpe` and `sortino`. -/
structure MetricsResult where
  starting_balance : ℚ
  final_balance : ℚ
  gross_profit : ℚ
  gross_loss : ℚ
  net_profit : ℚ
  total_trades : Nat
  total_open_trades : Nat
  commission : ℚ
  winners : Nat
  losers : Nat
  biggest_winner : ℚ
  biggest_losser : ℚ
  risk_reward : ℚ
  sharpe : NpVal
  sortino : NpVal
  volatility : NpVal
deriving DecidableEq

/-- `PerformanceMetrics.calculate_metrics`: `none` models the
`except Exception` path that logs and returns `{}` (reachable through the
plain-python `ZeroDivisionError` in the risk-reward expression). -/
def calculate_metrics (m : PerformanceMetrics) : Option MetricsResult :=
  let gross_profit : ℚ :=
    if m.trade_returns = [] then 0
    else (m.trade_returns.filter (fun t => decide (0 < t))).sum
  let gross_loss : ℚ :=
    if m.trade_returns = [] then 0
    else (m.trade_returns.filter (fun t => decide (t < 0))).sum
  let net_profit := gross_profit + gross_loss
  let total_trades := m.trade_log.length
  let total_commission : ℚ := (total_trades : ℚ) * m.commission
  let winners := (m.trade_returns.filter (fun t => decide (0 < t))).length
  let losers := (m.trade_returns.filter (fun t => decide (t < 0))).length
  let biggest_winner : ℚ := max (pyMaxD m.trade_returns) 0
  let biggest_losser : ℚ := min (pyMinD m.trade_returns) 0
  let rr : Option ℚ :=
    if (0 < losers ∧ gross_loss ≠ 0) ∨ (0 < winners ∧ gross_profit ≠ 0) then
      (pyDiv gross_profit (winners : ℚ)).bind (fun a =>
        (pyDiv gross_loss (losers : ℚ)).bind (fun b =>
          (pyDiv a b).map (fun c => |c|)))
    else some 0
  let gross_returns := m.trade_returns_percentage
  let excess_return : List ℚ :=
    if 0 < gross_returns.length then gross_returns.map (fun x => x - m.risk_free_rate)
    else []
  let sharpe : NpVal :=
    if npStdNeZero excess_return = true ∨ excess_return.length ≠ 0 then
      npMeanDivStd excess_return excess_return
    else NpVal.num 0
  let downside_returns : List ℚ :=
    if 0 < excess_return.length then excess_return.filter (fun r => decide (r < 0))
    else []
  let sortino : NpVal :=
    if npStdNeZero downside_returns = true ∨ excess_return.length ≠ 0 ∨
        downside_returns.length ≠ 0 then
      npMeanDivStd excess_return downside_returns
    else NpVal.num 0
  let volatility : NpVal :=
    if 0 < gross_returns.length then npStdVal gross_returns else NpVal.num 0
  match rr with
  | none => none
  | some rrv =>
    some { starting_balance := m.initial_capital
         , final_balance := m.final_capital
         , gross_profit := gross_profit
         , gross_loss := gross_loss
         , net_profit := net_profit
         , total_trades := total_trades
         , total_open_trades := m.open_positions.length
         , commission := total_commission
         , winners := winners
         , losers := losers
         , biggest_winner := biggest_winner
         , biggest_losser := biggest_losser
         , risk_reward := rrv
         , sharpe := sharpe
         , sortino := sortino
         , volatility := volatility }

/-!  Derived notions used by the stated properties. -/

/-- number of `CLOSE` entries of a trade log. -/
def countCloses (l : List Trade) : Nat :=
  (l.filter (fun tr => decide (tr.action = Action.CLOSE))).length

/-- number of `OPEN` (`BUY` or `SELL`) entries of a trade log. -/
def countOpens (l : List Trade) : Nat :=
  (l.filter (fun tr => decide (tr.action ≠ Action.CLOSE))).length

/-- the log holds a non-`CLOSE` trade with the given opening time. -/
def hasOpenAt (l : List Trade) (t : Int) : Prop :=
  ∃ tr ∈ l, tr.time = t ∧ tr.action ≠ Action.CLOSE

theorem get_trade_by_time_eq_none (s : Backtester) (t : Int)
    (h : ¬ hasOpenAt s.trade_log t) : s.get_trade_by_time t = none := by
  unfold Backtester.get_trade_by_time
  rw [List.find?_eq_none]
  intro tr htr hp
  exact h ⟨tr, htr, of_decide_eq_true hp⟩

/-!  Concrete inputs for the scenario properties. -/

/-- the scenario strategy: LONG at minute 1 and SHORT at minute 5 of the
series (timestamps 570..579, a 09:30 start at one-minute spacing). -/
def stratC1 : Strategy := ⟨fun t => decide (t = 571), fun t => decide (t = 575)⟩

/-- the scenario price series `[100,102,101,103,105,107,108,110,109,108]`. -/
def dataC1 : List (Int × ℚ) :=
  [(570, 100), (571, 102), (572, 101), (573, 103), (574, 105),
   (575, 107), (576, 108), (577, 110), (578, 109), (579, 108)]

/-- the scenario engine: initial capital 10000, commission 2, holding
duration 3 minutes. -/
def stC1 : Backtester := Backtester.init stratC1 dataC1 10000 2 3

set_option maxHeartbeats 4000000 in
/-- C1: on the ten-point scenario series with a LONG signal at minute 1 and a
SHORT signal at minute 5, holding duration 3 minutes, commission 2 and
initial capital 10000, `run` produces exactly the four trades
BUY (at price 102), CLOSE, SELL, CLOSE in that order, and the final capital
9996 is strictly below 10000. -/
theorem C1_scenario_trade_log :
    (Backtester.run stC1).trade_log =
      [⟨571, Action.BUY, 102, 9896⟩, ⟨574, Action.CLOSE, 105, 9999⟩,
       ⟨575, Action.SELL, 107, 19887 / 2⟩, ⟨578, Action.CLOSE, 109, 9996⟩] ∧
    (Backtester.run stC1).capital = 9996 ∧ (Backtester.run stC1).capital < 10000 := by
  norm_num [Backtester.run, Backtester.runAux, Backtester.stepBody,
    Backtester.closePhase, Backtester.settlePhase, Backtester.next,
    Backtester.check_strategy, Backtester.open_position,
    Backtester.update_position_close_time, Backtester.close_position,
    Backtester.get_trade_by_time, Backtester.close_trade,
    Backtester.settle_pending_positions, Backtester.init, stC1, stratC1, dataC1,
    priceAt, dateOf, timeOfDay, minutesPerDay, List.find?, List.findIdx?,
    List.erase, List.foldl]

/-- C7: running an engine built over the empty price series changes nothing:
the whole state is returned as initialised, so the trade log is empty, the
return series is empty and the capital is the initial capital. -/
theorem C7_empty_series_run (strat : Strategy) (cap comm : ℚ) (delta : Int) :
    (Backtester.init strat [] cap comm delta).run = Backtester.init strat [] cap comm delta ∧
    (Backtester.init strat [] cap comm delta).run.trade_log = [] ∧
    (Backtester.init strat [] cap comm delta).run.trade_returns = [] ∧
    (Backtester.init strat [] cap comm delta).run.trade_returns_percentage = [] ∧
    (Backtester.init strat [] cap comm delta).run.capital = cap := by
  have h : (Backtester.init strat [] cap comm delta).run =
      Backtester.init strat [] cap comm delta := by
    unfold Backtester.run Backtester.runAux Backtester.next Backtester.init
    simp
  exact ⟨h, by rw [h]; rfl, by rw [h]; rfl, by rw [h]; rfl, by rw [h]; rfl⟩

/-- evaluation of `open_position` once the current timestamp and its price are
known. -/
theorem open_position_eval (s : Backtester) (cur : Int) (p : ℚ) (a : Action) (q : ℚ)
    (hidx : s.current_index = some cur) (hp : priceAt s.data cur = some p) :
    s.open_position a q =
      match a with
      | Action.BUY =>
        if s.capital - (p * q) - s.commission > 0 then
          ({ s with capital := s.capital - ((p * q) + s.commission)
                  , trade_log := s.trade_log ++
                      [⟨cur, Action.BUY, p, s.capital - ((p * q) + s.commission)⟩] },
           some true)
        else (s, some false)
      | Action.SELL =>
        if s.capital - (p * q * s.short_frac) - s.commission > 0 then
          ({ s with capital := s.capital - ((p * q * s.short_frac) + s.commission)
                  , trade_log := s.trade_log ++
                      [⟨cur, Action.SELL, p, s.capital - ((p * q * s.short_frac) + s.commission)⟩] },
           some true)
        else (s, some false)
      | Action.CLOSE => (s, Option.none) := by
  unfold Backtester.open_position
  rw [hidx]
  simp [hp]

/-- `open_position` on a BUY with a present price, as a plain conditional. -/
theorem open_position_eval_buy (s : Backtester) (cur : Int) (p q : ℚ)
    (hidx : s.current_index = some cur) (hp : priceAt s.data cur = some p) :
    s.open_position Action.BUY q =
      if s.capital - (p * q) - s.commission > 0 then
        ({ s with capital := s.capital - ((p * q) + s.commission)
                , trade_log := s.trade_log ++
                    [⟨cur, Action.BUY, p, s.capital - ((p * q) + s.commission)⟩] },
         some true)
      else (s, some false) :=
  (open_position_eval s cur p Action.BUY q hidx hp).trans rfl

/-- `open_position` on a SELL with a present price, as a plain conditional. -/
theorem open_position_eval_sell (s : Backtester) (cur : Int) (p q : ℚ)
    (hidx : s.current_index = some cur) (hp : priceAt s.data cur = some p) :
    s.open_position Action.SELL q =
      if s.capital - (p * q * s.short_frac) - s.commission > 0 then
        ({ s with capital := s.capital - ((p * q * s.short_frac) + s.commission)
                , trade_log := s.trade_log ++
                    [⟨cur, Action.SELL, p, s.capital - ((p * q * s.short_frac) + s.commission)⟩] },
         some true)
      else (s, some false) :=
  (open_position_eval s cur p Action.SELL q hidx hp).trans rfl

/-- C9: when the price lookup inside `open_position` fails (the current
timestamp has no price), the state is unchanged and the result is python's
implicit `None` — a falsy value that is not the boolean `False` of the
documented contract. -/
theorem C9_open_price_missing_returns_none (s : Backtester) (cur : Int) (a : Action)
    (q : ℚ) (hidx : s.current_index = some cur) (hp : priceAt s.data cur = none) :
    s.open_position a q = (s, Option.none) ∧ (Option.none : Option Bool) ≠ some false := by
  refine ⟨?_, by simp⟩
  unfold Backtester.open_position
  rw [hidx]
  simp [hp]

/-- engine with an exhausted (empty) data set and a seated clock, for closed
instantiations. -/
def stC9 : Backtester :=
  { Backtester.init ⟨fun _ => false, fun _ => false⟩ [] 100 2 3 with current_index := some 5 }

theorem C9_witness : stC9.open_position Action.BUY 1 = (stC9, Option.none) :=
  (C9_open_price_missing_returns_none stC9 5 Action.BUY 1 rfl rfl).1

/-- C6: a close attempt whose price lookup fails or whose open-trade lookup
fails mutates nothing: `close_position` and `close_pending_position` return
the state unchanged (no `CLOSE` trade, no return record, same capital). -/
theorem C6_close_attempt_no_mutation (s : Backtester) (ct ot : Int) (q : ℚ) :
    ((priceAt s.data ct = none ∨ ¬ hasOpenAt s.trade_log (ct - s.close_time_delta)) →
      s.close_position ct q = s) ∧
    ((priceAt s.data ct = none ∨ ¬ hasOpenAt s.trade_log ot) →
      s.close_pending_position ct ot q = s) := by
  constructor
  · intro h
    unfold Backtester.close_position
    rcases h with h | h
    · simp [h]
    · rcases hpc : priceAt s.data ct with _ | p
      · simp
      · simp [get_trade_by_time_eq_none s _ h]
  · intro h
    unfold Backtester.close_pending_position
    rcases h with h | h
    · simp [h]
    · rcases hpc : priceAt s.data ct with _ | p
      · simp
      · simp [get_trade_by_time_eq_none s _ h]

/-- engine with one price point and an empty trade log, for closed
instantiations. -/
def stC6 : Backtester :=
  Backtester.init ⟨fun _ => false, fun _ => false⟩ [(570, 100)] 1000 2 3

theorem C6_witness : stC6.close_position 570 1 = stC6 :=
  (C6_close_attempt_no_mutation stC6 570 0 1).1
    (Or.inr (by simp [hasOpenAt, stC6, Backtester.init]))

/-- C2: `open_position` with a present price rejects the trade (returning
`false` with nothing mutated — in particular no scheduled close and no
pending trade is created) exactly when the capital minus cost is
non-positive, where the cost is price×quantity+commission for BUY and
price×quantity×short_ratio+commission for SELL; otherwise it debits exactly
the cost, appends one trade carrying the post-debit capital snapshot, and
the post-debit capital is strictly positive. -/
theorem C2_open_position_capital_check (s : Backtester) (cur : Int) (p q : ℚ)
    (a : Action) (hidx : s.current_index = some cur)
    (hp : priceAt s.data cur = some p) (ha : a = Action.BUY ∨ a = Action.SELL) :
    (s.capital - (p * q * (if a = Action.BUY then 1 else s.short_frac) + s.commission) ≤ 0 →
      s.open_position a q = (s, some false)) ∧
    (0 < s.capital - (p * q * (if a = Action.BUY then 1 else s.short_frac) + s.commission) →
      (s.open_position a q).2 = some true ∧
      (s.open_position a q).1.capital =
        s.capital - (p * q * (if a = Action.BUY then 1 else s.short_frac) + s.commission) ∧
      0 < (s.open_position a q).1.capital ∧
      (s.open_position a q).1.trade_log =
        s.trade_log ++
          [⟨cur, a, p,
            s.capital - (p * q * (if a = Action.BUY then 1 else s.short_frac) + s.commission)⟩] ∧
      (s.open_position a q).1.position_close_time = s.position_close_time ∧
      (s.open_position a q).1.pending_trades = s.pending_trades) := by
  rw [open_position_eval s cur p a q hidx hp]
  rcases ha with rfl | rfl
  · simp only [eq_self_iff_true, if_true, mul_one]
    constructor
    · intro hle
      rw [if_neg (by intro hgt; linarith)]
    · intro hgt
      rw [if_pos (by linarith)]
      refine ⟨rfl, rfl, ?_, rfl, rfl, rfl⟩
      show 0 < s.capital - (p * q + s.commission)
      linarith
  · simp only [sell_ne_buy, if_false]
    constructor
    · intro hle
      rw [if_neg (by intro hgt; linarith)]
    · intro hgt
      rw [if_pos (by linarith)]
      refine ⟨rfl, rfl, ?_, rfl, rfl, rfl⟩
      show 0 < s.capital - (p * q * s.short_frac + s.commission)
      linarith

/-- engine with one price point and a seated clock, for closed
instantiations. -/
def stC2 : Backtester :=
  { Backtester.init ⟨fun _ => false, fun _ => false⟩ [(570, 100)] 1000 2 3 with
      current_index := some 570 }

theorem C2_witness :
    (stC2.open_position Action.BUY 1).2 = some true ∧
    0 < (stC2.open_position Action.BUY 1).1.capital := by
  have h := (C2_open_position_capital_check stC2 570 100 1 Action.BUY rfl rfl
    (Or.inl rfl)).2 (by norm_num [stC2, Backtester.init])
  exact ⟨h.1, h.2.2.1⟩

/-- a first-match position search for the last element of a duplicate-free
list lands on the final position. -/
theorem findIdx_of_getLast (l : List Int) (t : Int) (hn : l.Nodup)
    (hl : l.getLast? = some t) (i : Nat) :
    l.findIdx? (fun x => decide (x = t)) i = some (i + l.length - 1) := by
  induction l generalizing i with
  | nil => simp at hl
  | cons x xs ih =>
    cases xs with
    | nil =>
      have hx : x = t := by simpa using hl
      subst hx
      simp [List.findIdx?_cons]
    | cons y ys =>
      rw [List.getLast?_cons_cons] at hl
      have ht : t ∈ y :: ys := List.mem_of_mem_getLast? (Option.mem_def.mpr hl)
      have hxt : x ≠ t := by
        intro h
        exact (List.nodup_cons.mp hn).1 (h ▸ ht)
      rw [List.findIdx?_cons, if_neg (by simp [hxt])]
      rw [ih (List.nodup_cons.mp hn).2 hl (i + 1)]
      congr 1
      simp only [List.length_cons]
      omega

/-- a first-match position search for an absent element fails. -/
theorem findIdx_of_not_mem (l : List Int) (t : Int) (h : t ∉ l) (i : Nat) :
    l.findIdx? (fun x => decide (x = t)) i = none := by
  induction l generalizing i with
  | nil => simp
  | cons x xs ih =>
    rw [List.findIdx?_cons, if_neg]
    · exact ih (fun hm => h (List.mem_cons_of_mem _ hm)) (i + 1)
    · simp only [decide_eq_true_eq]
      intro he
      exact h (he ▸ List.mem_cons_self _ _)

/-- C8: on an engine whose clock is exhausted — the current timestamp is the
last timestamp of a duplicate-free series, or is absent from the series —
`next` returns `false` without mutation and `run` returns the state
unchanged (capital, trade log, return series, pending and scheduled-close
sets untouched). -/
theorem C8_run_exhausted_no_mutation (s : Backtester) (cur : Int)
    (hidx : s.current_index = some cur)
    (hnd : (s.data.map Prod.fst).Nodup)
    (h : (s.data.map Prod.fst).getLast? = some cur ∨ cur ∉ s.data.map Prod.fst) :
    s.next = (s, false) ∧ s.run = s := by
  have hnext : s.next = (s, false) := by
    rcases h with h | h
    · have hfi := findIdx_of_getLast _ _ hnd h 0
      have hif : ¬ (0 + (s.data.map Prod.fst).length - 1 < s.data.length - 1) := by
        simp only [List.length_map]
        omega
      simp [Backtester.next, hidx, hfi, hif]
    · have hfi := findIdx_of_not_mem _ _ h 0
      simp [Backtester.next, hidx, hfi]
  have hrun : s.run = s := by
    unfold Backtester.run
    simp [Backtester.runAux, hnext]
  exact ⟨hnext, hrun⟩

/-- engine whose clock sits on the last timestamp of a two-point series, for
closed instantiations. -/
def stC8 : Backtester :=
  { Backtester.init ⟨fun _ => false, fun _ => false⟩ [(570, 100), (571, 102)] 1000 2 3 with
      current_index := some 571 }

theorem C8_witness : stC8.next = (stC8, false) ∧ stC8.run = stC8 :=
  C8_run_exhausted_no_mutation stC8 571 rfl (by simp [stC8, Backtester.init])
    (Or.inl rfl)

/-!  Frame lemmas: which state fields each operation can touch. -/

/-- `close_trade` only touches capital, the trade log and the return
series. -/
theorem close_trade_frame (s : Backtester) (a : Action) (ct : Int) (cp op q : ℚ) :
    (s.close_trade a ct cp op q).position_close_time = s.position_close_time ∧
    (s.close_trade a ct cp op q).pending_trades = s.pending_trades ∧
    (s.close_trade a ct cp op q).current_index = s.current_index ∧
    (s.close_trade a ct cp op q).current_date = s.current_date ∧
    (s.close_trade a ct cp op q).data = s.data ∧
    (s.close_trade a ct cp op q).close_time_delta = s.close_time_delta ∧
    (s.close_trade a ct cp op q).exchange_close_time = s.exchange_close_time ∧
    (s.close_trade a ct cp op q).strategy = s.strategy := by
  cases a <;> exact ⟨rfl, rfl, rfl, rfl, rfl, rfl, rfl, rfl⟩

/-- `close_position` evaluated by cases on its two lookups. -/
theorem close_position_eval (s : Backtester) (ct : Int) (q : ℚ) :
    s.close_position ct q =
      match priceAt s.data ct, s.get_trade_by_time (ct - s.close_time_delta) with
      | some cp, some tr => s.close_trade tr.action ct cp tr.price q
      | _, _ => s := by
  unfold Backtester.close_position
  rcases priceAt s.data ct with _ | cp
  · rfl
  · rcases s.get_trade_by_time (ct - s.close_time_delta) with _ | tr <;> rfl

/-- `close_pending_position` evaluated by cases on its two lookups. -/
theorem close_pending_position_eval (s : Backtester) (ct ot : Int) (q : ℚ) :
    s.close_pending_position ct ot q =
      match priceAt s.data ct, s.get_trade_by_time ot with
      | some cp, some tr => s.close_trade tr.action ct cp tr.price q
      | _, _ => s := by
  unfold Backtester.close_pending_position
  rcases priceAt s.data ct with _ | cp
  · rfl
  · rcases s.get_trade_by_time ot with _ | tr <;> rfl

/-- `close_position` only touches capital, the trade log and the return
series. -/
theorem close_position_frame (s : Backtester) (ct : Int) (q : ℚ) :
    (s.close_position ct q).position_close_time = s.position_close_time ∧
    (s.close_position ct q).pending_trades = s.pending_trades ∧
    (s.close_position ct q).current_index = s.current_index ∧
    (s.close_position ct q).current_date = s.current_date ∧
    (s.close_position ct q).data = s.data ∧
    (s.close_position ct q).close_time_delta = s.close_time_delta ∧
    (s.close_position ct q).exchange_close_time = s.exchange_close_time ∧
    (s.close_position ct q).strategy = s.strategy := by
  rw [close_position_eval]
  rcases priceAt s.data ct with _ | cp
  · exact ⟨rfl, rfl, rfl, rfl, rfl, rfl, rfl, rfl⟩
  · rcases s.get_trade_by_time (ct - s.close_time_delta) with _ | tr
    · exact ⟨rfl, rfl, rfl, rfl, rfl, rfl, rfl, rfl⟩
    · exact close_trade_frame s tr.action ct cp tr.price q

/-- `close_pending_position` only touches capital, the trade log and the
return series. -/
theorem close_pending_position_frame (s : Backtester) (ct ot : Int) (q : ℚ) :
    (s.close_pending_position ct ot q).position_close_time = s.position_close_time ∧
    (s.close_pending_position ct ot q).pending_trades = s.pending_trades ∧
    (s.close_pending_position ct ot q).current_index = s.current_index ∧
    (s.close_pending_position ct ot q).current_date = s.current_date ∧
    (s.close_pending_position ct ot q).data = s.data ∧
    (s.close_pending_position ct ot q).close_time_delta = s.close_time_delta ∧
    (s.close_pending_position ct ot q).exchange_close_time = s.exchange_close_time ∧
    (s.close_pending_position ct ot q).strategy = s.strategy := by
  rw [close_pending_position_eval]
  rcases priceAt s.data ct with _ | cp
  · exact ⟨rfl, rfl, rfl, rfl, rfl, rfl, rfl, rfl⟩
  · rcases s.get_trade_by_time ot with _ | tr
    · exact ⟨rfl, rfl, rfl, rfl, rfl, rfl, rfl, rfl⟩
    · exact close_trade_frame s tr.action ct cp tr.price q

/-- the settlement fold closes trades one by one; none of its iterations
touches the scheduled-close set, the clock or the data. -/
theorem settle_fold_frame (l : List (Int × Action)) (st : Backtester) :
    ((l.foldl (fun st pt =>
        match st.current_index with
        | none => st
        | some cur => st.close_pending_position cur pt.1 1) st)).position_close_time =
      st.position_close_time ∧
    ((l.foldl (fun st pt =>
        match st.current_index with
        | none => st
        | some cur => st.close_pending_position cur pt.1 1) st)).current_index =
      st.current_index ∧
    ((l.foldl (fun st pt =>
        match st.current_index with
        | none => st
        | some cur => st.close_pending_position cur pt.1 1) st)).current_date =
      st.current_date ∧
    ((l.foldl (fun st pt =>
        match st.current_index with
        | none => st
        | some cur => st.close_pending_position cur pt.1 1) st)).data = st.data ∧
    ((l.foldl (fun st pt =>
        match st.current_index with
        | none => st
        | some cur => st.close_pending_position cur pt.1 1) st)).close_time_delta =
      st.close_time_delta ∧
    ((l.foldl (fun st pt =>
        match st.current_index with
        | none => st
        | some cur => st.close_pending_position cur pt.1 1) st)).pending_trades =
      st.pending_trades := by
  induction l generalizing st with
  | nil => exact ⟨rfl, rfl, rfl, rfl, rfl, rfl⟩
  | cons pt rest ih =>
    simp only [List.foldl_cons]
    rcases hc : st.current_index with _ | cur
    · obtain ⟨i1, i2, i3, i4, i5, i6⟩ := ih st
      exact ⟨i1, i2.trans hc, i3, i4, i5, i6⟩
    · obtain ⟨i1, i2, i3, i4, i5, i6⟩ := ih (st.close_pending_position cur pt.1 1)
      obtain ⟨f1, f2, f3, f4, f5, f6, f7, f8⟩ :=
        close_pending_position_frame st cur pt.1 1
      exact ⟨i1.trans f1, i2.trans (f3.trans hc), i3.trans f4, i4.trans f5,
        i5.trans f6, i6.trans f2⟩

/-- `settle_pending_positions` empties the pending list and touches neither
the scheduled-close set nor the clock. -/
theorem settle_frame (s : Backtester) :
    (s.settle_pending_positions).pending_trades = [] ∧
    (s.settle_pending_positions).position_close_time = s.position_close_time ∧
    (s.settle_pending_positions).current_index = s.current_index ∧
    (s.settle_pending_positions).current_date = s.current_date ∧
    (s.settle_pending_positions).data = s.data ∧
    (s.settle_pending_positions).close_time_delta = s.close_time_delta := by
  unfold Backtester.settle_pending_positions
  obtain ⟨f1, f2, f3, f4, f5, _⟩ := settle_fold_frame s.pending_trades s
  exact ⟨rfl, f1, f2, f3, f4, f5⟩

/-- `settlePhase` never touches the scheduled-close set. -/
theorem settlePhase_position_close_time (s : Backtester) :
    (s.settlePhase).position_close_time = s.position_close_time := by
  unfold Backtester.settlePhase
  rcases hp : s.pending_trades with _ | ⟨pt, rest⟩ <;>
    rcases hd : s.current_date with _ | d <;> simp only []
  split
  · exact (settle_frame s).2.1
  · rfl

/-- `open_position` only touches capital and the trade log. -/
theorem open_position_frame (s : Backtester) (a : Action) (q : ℚ) :
    (s.open_position a q).1.position_close_time = s.position_close_time ∧
    (s.open_position a q).1.pending_trades = s.pending_trades ∧
    (s.open_position a q).1.current_index = s.current_index ∧
    (s.open_position a q).1.current_date = s.current_date ∧
    (s.open_position a q).1.data = s.data ∧
    (s.open_position a q).1.close_time_delta = s.close_time_delta ∧
    (s.open_position a q).1.exchange_close_time = s.exchange_close_time ∧
    (s.open_position a q).1.strategy = s.strategy ∧
    (s.open_position a q).1.commission = s.commission ∧
    (s.open_position a q).1.short_frac = s.short_frac := by
  rcases h2 : s.current_index with _ | cur
  · have he : s.open_position a q = (s, Option.none) := by
      unfold Backtester.open_position
      simp only [h2, Option.none_bind]
    rw [he]
    exact ⟨rfl, rfl, h2, rfl, rfl, rfl, rfl, rfl, rfl, rfl⟩
  · rcases hp : priceAt s.data cur with _ | p
    · have he : s.open_position a q = (s, Option.none) := by
        unfold Backtester.open_position
        simp only [h2, Option.some_bind, hp]
      rw [he]
      exact ⟨rfl, rfl, h2, rfl, rfl, rfl, rfl, rfl, rfl, rfl⟩
    · rw [open_position_eval s cur p a q h2 hp]
      cases a
      · split_ifs <;> exact ⟨rfl, rfl, h2, rfl, rfl, rfl, rfl, rfl, rfl, rfl⟩
      · split_ifs <;> exact ⟨rfl, rfl, h2, rfl, rfl, rfl, rfl, rfl, rfl, rfl⟩
      · exact ⟨rfl, rfl, h2, rfl, rfl, rfl, rfl, rfl, rfl, rfl⟩

/-- `update_position_close_time` touches only the scheduled-close and pending
sets. -/
theorem update_position_close_time_frame (s : Backtester) (a : Action) :
    (s.update_position_close_time a).current_index = s.current_index ∧
    (s.update_position_close_time a).current_date = s.current_date ∧
    (s.update_position_close_time a).data = s.data ∧
    (s.update_position_close_time a).close_time_delta = s.close_time_delta ∧
    (s.update_position_close_time a).exchange_close_time = s.exchange_close_time ∧
    (s.update_position_close_time a).strategy = s.strategy ∧
    (s.update_position_close_time a).trade_log = s.trade_log ∧
    (s.update_position_close_time a).capital = s.capital ∧
    (s.update_position_close_time a).commission = s.commission ∧
    (s.update_position_close_time a).short_frac = s.short_frac := by
  rcases h2 : s.current_index with _ | cur
  · have he : s.update_position_close_time a = s := by
      unfold Backtester.update_position_close_time
      simp only [h2]
    rw [he]
    exact ⟨h2, rfl, rfl, rfl, rfl, rfl, rfl, rfl, rfl, rfl⟩
  · unfold Backtester.update_position_close_time
    simp only [h2]
    split_ifs <;> exact ⟨rfl, rfl, rfl, rfl, rfl, rfl, rfl, rfl, rfl, rfl⟩

/-- `check_strategy` either leaves the state untouched (no signal, rejected or
failed open) or produces exactly one appended open trade at the current
timestamp followed by the close-scheduling update. -/
theorem check_strategy_cases (s : Backtester) :
    (s.check_strategy).1 = s ∨
    ∃ cur p a cap, s.current_index = some cur ∧ priceAt s.data cur = some p ∧
      (a = Action.BUY ∨ a = Action.SELL) ∧
      (s.check_strategy).1 =
        Backtester.update_position_close_time
          { s with capital := cap
                 , trade_log := s.trade_log ++ [⟨cur, a, p, cap⟩] } a := by
  rcases h2 : s.current_index with _ | cur
  · refine Or.inl ?_
    unfold Backtester.check_strategy
    simp only [h2]
  · unfold Backtester.check_strategy
    simp only [h2]
    rcases hb : s.strategy.shouldBuy cur with _ | _
    · rw [if_neg (by simp)]
      rcases hs : s.strategy.shouldSell cur with _ | _
      · rw [if_neg (by simp)]
        exact Or.inl rfl
      · rw [if_pos rfl]
        rcases hp : priceAt s.data cur with _ | p
        · have he : s.open_position Action.SELL 1 = (s, Option.none) := by
            unfold Backtester.open_position
            simp only [h2, Option.some_bind, hp]
          rw [he]
          exact Or.inl rfl
        · rw [open_position_eval_sell s cur p 1 h2 hp]
          split_ifs with hc
          · exact Or.inr ⟨cur, p, Action.SELL,
              s.capital - (p * 1 * s.short_frac + s.commission), rfl, hp,
              Or.inr rfl, by rw [← h2]⟩
          · exact Or.inl rfl
    · rw [if_pos rfl]
      rcases hp : priceAt s.data cur with _ | p
      · have he : s.open_position Action.BUY 1 = (s, Option.none) := by
          unfold Backtester.open_position
          simp only [h2, Option.some_bind, hp]
        rw [he]
        exact Or.inl rfl
      · rw [open_position_eval_buy s cur p 1 h2 hp]
        split_ifs with hc
        · exact Or.inr ⟨cur, p, Action.BUY, s.capital - (p * 1 + s.commission),
            rfl, hp, Or.inl rfl, by rw [← h2]⟩
        · exact Or.inl rfl

/-- `check_strategy` keeps the clock, data and configuration intact. -/
theorem check_strategy_frame (s : Backtester) :
    (s.check_strategy).1.current_index = s.current_index ∧
    (s.check_strategy).1.current_date = s.current_date ∧
    (s.check_strategy).1.data = s.data ∧
    (s.check_strategy).1.close_time_delta = s.close_time_delta ∧
    (s.check_strategy).1.exchange_close_time = s.exchange_close_time ∧
    (s.check_strategy).1.strategy = s.strategy := by
  rcases check_strategy_cases s with h | ⟨cur, p, a, cap, h2, hp, ha, h⟩
  · rw [h]
    exact ⟨rfl, rfl, rfl, rfl, rfl, rfl⟩
  · rw [h]
    obtain ⟨u1, u2, u3, u4, u5, u6, _, _, _, _⟩ :=
      update_position_close_time_frame
        { s with capital := cap, trade_log := s.trade_log ++ [⟨cur, a, p, cap⟩] } a
    exact ⟨u1, u2, u3, u4, u5, u6⟩

/-- C10: at a tick whose timestamp sits in the scheduled-close set (after the
strategy phase), the loop body removes the timestamp from the set no matter
what the close attempt did — `close_position` never touches the set and
never propagates an error, so the removal is unconditional. -/
theorem C10_scheduled_entry_removed_unconditionally (s : Backtester) (cur : Int)
    (hidx : s.current_index = some cur)
    (hmem : cur ∈ ((s.check_strategy).1).position_close_time) :
    (s.stepBody).position_close_time =
      (((s.check_strategy).1).position_close_time).erase cur ∧
    ∀ ct q, (((s.check_strategy).1).close_position ct q).position_close_time =
      ((s.check_strategy).1).position_close_time := by
  have hidx1 : (s.check_strategy).1.current_index = some cur :=
    (check_strategy_frame s).1.trans hidx
  constructor
  · have hcp : ((s.check_strategy).1.closePhase).position_close_time =
        (((s.check_strategy).1).position_close_time).erase cur := by
      unfold Backtester.closePhase
      simp only [hidx1]
      rw [if_pos hmem]
      rw [(close_position_frame _ cur 1).1]
    unfold Backtester.stepBody
    rw [settlePhase_position_close_time, hcp]
  · intro ct q
    exact (close_position_frame _ ct q).1

/-- engine at a tick whose timestamp is scheduled for close but whose trade
log is empty, so the close attempt itself fails; for closed
instantiations. -/
def stC10 : Backtester :=
  { Backtester.init ⟨fun _ => false, fun _ => false⟩ [(574, 105)] 1000 2 3 with
      current_index := some 574, position_close_time := [574] }

theorem C10_witness :
    (stC10.stepBody).position_close_time =
      ((stC10.check_strategy).1).position_close_time.erase 574 :=
  (C10_scheduled_entry_removed_unconditionally stC10 574 rfl
    (by norm_num [Backtester.check_strategy, stC10, Backtester.init])).1

/-- the strategy of the C3 counterexample: a LONG signal at every tick. -/
def stratC3 : Strategy := ⟨fun _ => true, fun _ => false⟩

/-- two ticks, both at 15:59 (minute 959 of their day), on consecutive
days. -/
def dataC3 : List (Int × ℚ) := [(959, 100), (2399, 101)]

/-- engine of the C3 counterexample. -/
def stC3 : Backtester := Backtester.init stratC3 dataC3 10000 2 3

set_option maxHeartbeats 4000000 in
/-- C3 counterexample: at the tick with timestamp 2399 (calendar day 1),
after the strategy phase the pending set holds the trade opened at 959
(day 0) and the trade opened at 2399 (day 1, this very tick); the
settlement phase of the same tick clears both and appends two `CLOSE`
records — the day-1 pending trade is settled on its own opening day, not
one day after. -/
theorem C3_counterexample :
    ((((stC3.next).1.stepBody).next).1.current_index = some 2399) ∧
    (((((stC3.next).1.stepBody).next).1.check_strategy).1.pending_trades =
      [(959, Action.BUY), (2399, Action.BUY)]) ∧
    (((((stC3.next).1.stepBody).next).1.stepBody).pending_trades = []) ∧
    countCloses ((((stC3.next).1.stepBody).next).1.stepBody).trade_log = 2 ∧
    dateOf 959 = 0 ∧ dateOf 2399 = 1 := by
  norm_num [Backtester.runAux, Backtester.stepBody, Backtester.closePhase,
    Backtester.settlePhase, Backtester.next, Backtester.check_strategy,
    Backtester.open_position, Backtester.update_position_close_time,
    Backtester.close_position, Backtester.get_trade_by_time,
    Backtester.close_trade, Backtester.close_pending_position,
    Backtester.settle_pending_positions, Backtester.init, stC3, stratC3, dataC3,
    priceAt, dateOf, timeOfDay, minutesPerDay, countCloses, List.find?,
    List.findIdx?, List.erase, List.foldl, List.filter]

/-- C3 (amended): at a tick (isolated from the open and scheduled-close
phases), the pending trades are settled — all of them, at the current
timestamp, whatever their own opening dates — exactly when the first
pending trade's opening calendar date is one day before the current
calendar date; otherwise none are settled. -/
theorem C3_settlement_rule (s : Backtester) (cur d : Int)
    (hidx : s.current_index = some cur) (hdate : s.current_date = some d)
    (hbuy : s.strategy.shouldBuy cur = false)
    (hsell : s.strategy.shouldSell cur = false)
    (hsched : cur ∉ s.position_close_time) :
    (s.stepBody).pending_trades =
      (match s.pending_trades with
       | [] => ([] : List (Int × Action))
       | pt :: _ => if dateOf pt.1 = d - 1 then [] else s.pending_trades) := by
  have hcs : s.check_strategy = (s, false) := by
    unfold Backtester.check_strategy
    simp only [hidx, hbuy]
    rw [if_neg (by simp), if_neg (by simp [hsell])]
  have hcp : s.closePhase = s := by
    unfold Backtester.closePhase
    simp only [hidx]
    rw [if_neg hsched]
  unfold Backtester.stepBody
  rw [hcs]
  show ((s.closePhase).settlePhase).pending_trades = _
  rw [hcp]
  rcases hpt : s.pending_trades with _ | ⟨pt, rest⟩
  · simp [Backtester.settlePhase, hpt]
  · unfold Backtester.settlePhase
    simp only [hpt, hdate]
    split_ifs with hd
    · exact (settle_frame s).1
    · exact hpt

/-- engine at a tick on day 1 holding a pending trade from day 0, for closed
instantiations. -/
def stC3w : Backtester :=
  { Backtester.init ⟨fun _ => false, fun _ => false⟩ [(2399, 101)] 10000 2 3 with
      current_index := some 2399, current_date := some 1,
      trade_log := [⟨959, Action.BUY, 100, 9898⟩],
      pending_trades := [(959, Action.BUY)] }

theorem C3_witness : (stC3w.stepBody).pending_trades = [] := by
  rw [C3_settlement_rule stC3w 2399 1 rfl rfl rfl rfl
    (by simp [stC3w, Backtester.init])]
  norm_num [stC3w, Backtester.init, dateOf, minutesPerDay]

/-- metrics input with an empty return series (the zero/neutral case of the
claim). -/
def pmEmpty : PerformanceMetrics := ⟨10000, 10000, [], [], 2, [], [], 1 / 50⟩

/-- metrics input with one winning trade and no losing trade (the
risk-reward-undefined case of the claim). -/
def pmOneWin : PerformanceMetrics := ⟨10000, 10001, [1], [1], 2, [], [], 1 / 50⟩

/-- C4: the divide-by-zero guards of `calculate_metrics` use `or` where the
claim (and the `else 0.0` intent) needs `and`.  Over an empty return series
the Sharpe and Sortino ratios come out as numpy `nan`, not zero: the guard
`std(x) != 0 or len(x) != 0` is satisfied because `nan != 0` is true in
python, and `mean([])/std([])` is `nan/nan`.  With one winning trade and no
losing trade the risk-reward expression divides by `losers = 0` in plain
python, the `ZeroDivisionError` escapes to the outer handler, and the whole
function returns the empty dict instead of reporting zero for the
undefined ratio. -/
theorem C4_metrics_guards_wrong :
    (calculate_metrics pmEmpty).map MetricsResult.sharpe = some NpVal.nan ∧
    (calculate_metrics pmEmpty).map MetricsResult.sortino = some NpVal.nan ∧
    (calculate_metrics pmEmpty).map MetricsResult.risk_reward = some 0 ∧
    calculate_metrics pmOneWin = none := by
  refine ⟨?_, ?_, ?_, ?_⟩ <;>
    norm_num [calculate_metrics, pmEmpty, pmOneWin, npStdNeZero, npMeanDivStd,
      npStdVal, listMean, listVar, pyDiv, pyMaxD, pyMinD, List.filter]

/-!  Ledger bookkeeping: the open/close counting that underlies the
trade-log balance invariant. -/

theorem countOpens_append (l1 l2 : List Trade) :
    countOpens (l1 ++ l2) = countOpens l1 + countOpens l2 := by
  simp [countOpens, List.filter_append]

theorem countCloses_append (l1 l2 : List Trade) :
    countCloses (l1 ++ l2) = countCloses l1 + countCloses l2 := by
  simp [countCloses, List.filter_append]

theorem countOpens_single (tr : Trade) (h : tr.action ≠ Action.CLOSE) :
    countOpens [tr] = 1 := by
  simp [countOpens, List.filter, h]

theorem countCloses_single (tr : Trade) (h : tr.action ≠ Action.CLOSE) :
    countCloses [tr] = 0 := by
  simp [countCloses, List.filter, h]

theorem countOpens_close (tr : Trade) (h : tr.action = Action.CLOSE) :
    countOpens [tr] = 0 := by
  simp [countOpens, List.filter, h]

theorem countCloses_close (tr : Trade) (h : tr.action = Action.CLOSE) :
    countCloses [tr] = 1 := by
  simp [countCloses, List.filter, h]

theorem hasOpenAt_append_left (l l2 : List Trade) (t : Int)
    (h : hasOpenAt l t) : hasOpenAt (l ++ l2) t := by
  obtain ⟨tr, htr, h1, h2⟩ := h
  exact ⟨tr, List.mem_append_left l2 htr, h1, h2⟩

theorem hasOpenAt_appended (l : List Trade) (tr : Trade)
    (h : tr.action ≠ Action.CLOSE) : hasOpenAt (l ++ [tr]) tr.time :=
  ⟨tr, List.mem_append_right l (List.mem_singleton.mpr rfl), rfl, h⟩

/-- when a matching open trade exists, `get_trade_by_time` finds one, and the
found trade is not a `CLOSE`. -/
theorem get_trade_by_time_found (s : Backtester) (t : Int)
    (h : hasOpenAt s.trade_log t) :
    ∃ tr, s.get_trade_by_time t = some tr ∧ tr.action ≠ Action.CLOSE := by
  have hsome : (s.trade_log.find?
      (fun tr => decide (tr.time = t ∧ tr.action ≠ Action.CLOSE))).isSome = true := by
    rw [List.find?_isSome]
    obtain ⟨tr, htr, h1, h2⟩ := h
    exact ⟨tr, htr, by simp [h1, h2]⟩
  unfold Backtester.get_trade_by_time
  rcases ho : s.trade_log.find?
      (fun tr => decide (tr.time = t ∧ tr.action ≠ Action.CLOSE)) with _ | tr
  · rw [ho] at hsome
    simp at hsome
  · have hp := List.find?_some ho
    simp only [decide_eq_true_eq] at hp
    exact ⟨tr, ho, hp.2⟩

/-- closing a non-`CLOSE` action appends exactly one `CLOSE` record. -/
theorem close_trade_ledger (s : Backtester) (a : Action) (ct : Int) (cp op q : ℚ)
    (h : a ≠ Action.CLOSE) :
    countOpens (s.close_trade a ct cp op q).trade_log = countOpens s.trade_log ∧
    countCloses (s.close_trade a ct cp op q).trade_log =
      countCloses s.trade_log + 1 ∧
    ∃ ext : List Trade,
      (s.close_trade a ct cp op q).trade_log = s.trade_log ++ ext := by
  cases a
  case CLOSE => exact absurd rfl h
  case BUY =>
    refine ⟨?_, ?_, ⟨_, rfl⟩⟩
    · show countOpens (s.trade_log ++ [⟨ct, Action.CLOSE, cp, _⟩]) = _
      rw [countOpens_append, countOpens_close _ rfl]
      omega
    · show countCloses (s.trade_log ++ [⟨ct, Action.CLOSE, cp, _⟩]) = _
      rw [countCloses_append, countCloses_close _ rfl]
  case SELL =>
    refine ⟨?_, ?_, ⟨_, rfl⟩⟩
    · show countOpens (s.trade_log ++ [⟨ct, Action.CLOSE, cp, _⟩]) = _
      rw [countOpens_append, countOpens_close _ rfl]
      omega
    · show countCloses (s.trade_log ++ [⟨ct, Action.CLOSE, cp, _⟩]) = _
      rw [countCloses_append, countCloses_close _ rfl]

/-- a scheduled close whose price and matching trade exist appends exactly one
`CLOSE` record. -/
theorem close_position_success (s : Backtester) (ct : Int) (q p : ℚ)
    (hp : priceAt s.data ct = some p)
    (h : hasOpenAt s.trade_log (ct - s.close_time_delta)) :
    countOpens (s.close_position ct q).trade_log = countOpens s.trade_log ∧
    countCloses (s.close_position ct q).trade_log = countCloses s.trade_log + 1 ∧
    ∃ ext : List Trade, (s.close_position ct q).trade_log = s.trade_log ++ ext := by
  obtain ⟨tr, hfind, hne⟩ := get_trade_by_time_found s _ h
  rw [close_position_eval, hp, hfind]
  exact close_trade_ledger s tr.action ct p tr.price q hne

/-- a pending-trade close whose price and matching trade exist appends exactly
one `CLOSE` record. -/
theorem close_pending_position_success (s : Backtester) (ct ot : Int) (q p : ℚ)
    (hp : priceAt s.data ct = some p) (h : hasOpenAt s.trade_log ot) :
    countOpens (s.close_pending_position ct ot q).trade_log =
      countOpens s.trade_log ∧
    countCloses (s.close_pending_position ct ot q).trade_log =
      countCloses s.trade_log + 1 ∧
    ∃ ext : List Trade,
      (s.close_pending_position ct ot q).trade_log = s.trade_log ++ ext := by
  obtain ⟨tr, hfind, hne⟩ := get_trade_by_time_found s _ h
  rw [close_pending_position_eval, hp, hfind]
  exact close_trade_ledger s tr.action ct p tr.price q hne

/-- the settlement fold at a tick with a present price closes one trade per
pending entry. -/
theorem settle_fold_ledger (l : List (Int × Action)) (st : Backtester)
    (cur : Int) (p : ℚ) (hidx : st.current_index = some cur)
    (hp : priceAt st.data cur = some p)
    (hall : ∀ pt ∈ l, hasOpenAt st.trade_log pt.1) :
    countOpens ((l.foldl (fun st pt =>
        match st.current_index with
        | none => st
        | some cur => st.close_pending_position cur pt.1 1) st)).trade_log =
      countOpens st.trade_log ∧
    countCloses ((l.foldl (fun st pt =>
        match st.current_index with
        | none => st
        | some cur => st.close_pending_position cur pt.1 1) st)).trade_log =
      countCloses st.trade_log + l.length ∧
    ∃ ext : List Trade,
      ((l.foldl (fun st pt =>
        match st.current_index with
        | none => st
        | some cur => st.close_pending_position cur pt.1 1) st)).trade_log =
      st.trade_log ++ ext := by
  induction l generalizing st with
  | nil => exact ⟨rfl, rfl, ⟨[], (List.append_nil _).symm⟩⟩
  | cons pt rest ih =>
    simp only [List.foldl_cons, hidx]
    have hhead : hasOpenAt st.trade_log pt.1 := hall pt (List.mem_cons_self _ _)
    obtain ⟨c1, c2, ⟨ext1, hext1⟩⟩ :=
      close_pending_position_success st cur pt.1 1 p hp hhead
    obtain ⟨f1, f2, f3, f4, f5, f6, f7, f8⟩ :=
      close_pending_position_frame st cur pt.1 1
    have hidx1 : (st.close_pending_position cur pt.1 1).current_index = some cur :=
      f3.trans hidx
    have hp1 : priceAt (st.close_pending_position cur pt.1 1).data cur = some p := by
      rw [f5]
      exact hp
    have hall1 : ∀ pt' ∈ rest,
        hasOpenAt (st.close_pending_position cur pt.1 1).trade_log pt'.1 := by
      intro pt' hm
      rw [hext1]
      exact hasOpenAt_append_left _ ext1 _ (hall pt' (List.mem_cons_of_mem _ hm))
    obtain ⟨i1, i2, ⟨ext2, hext2⟩⟩ :=
      ih (st.close_pending_position cur pt.1 1) hidx1 hp1 hall1
    refine ⟨i1.trans c1, ?_, ⟨ext1 ++ ext2, ?_⟩⟩
    · rw [i2, c2, List.length_cons]
      omega
    · rw [hext2, hext1, List.append_assoc]

/-- `settle_pending_positions` at a tick with a present price closes one trade
per pending entry and empties the pending list. -/
theorem settle_ledger (s : Backtester) (cur : Int) (p : ℚ)
    (hidx : s.current_index = some cur) (hp : priceAt s.data cur = some p)
    (hall : ∀ pt ∈ s.pending_trades, hasOpenAt s.trade_log pt.1) :
    countOpens (s.settle_pending_positions).trade_log = countOpens s.trade_log ∧
    countCloses (s.settle_pending_positions).trade_log =
      countCloses s.trade_log + s.pending_trades.length ∧
    ∃ ext : List Trade,
      (s.settle_pending_positions).trade_log = s.trade_log ++ ext :=
  settle_fold_ledger s.pending_trades s cur p hidx hp hall

/-- `closePhase` keeps the clock and the data. -/
theorem closePhase_clock (s : Backtester) :
    (s.closePhase).current_index = s.current_index ∧
    (s.closePhase).current_date = s.current_date ∧
    (s.closePhase).data = s.data ∧
    (s.closePhase).close_time_delta = s.close_time_delta := by
  rcases h2 : s.current_index with _ | cur
  · have he : s.closePhase = s := by
      unfold Backtester.closePhase
      simp only [h2]
    rw [he]
    exact ⟨h2, rfl, rfl, rfl⟩
  · unfold Backtester.closePhase
    simp only [h2]
    split_ifs with hm
    · obtain ⟨f1, f2, f3, f4, f5, f6, f7, f8⟩ := close_position_frame s cur 1
      exact ⟨f3.trans h2, f4, f5, f6⟩
    · exact ⟨h2, rfl, rfl, rfl⟩

/-- `update_position_close_time` at a known tick either defers the trade to
the pending list or schedules a close `close_time_delta` minutes ahead. -/
theorem update_position_close_time_spec (s : Backtester) (a : Action) (cur : Int)
    (hidx : s.current_index = some cur) :
    s.update_position_close_time a =
      { s with pending_trades := s.pending_trades ++ [(cur, a)] } ∨
    s.update_position_close_time a =
      { s with position_close_time :=
          s.position_close_time ++ [cur + s.close_time_delta] } := by
  unfold Backtester.update_position_close_time
  simp only [hidx]
  split_ifs with hc
  · exact Or.inl rfl
  · exact Or.inr rfl

/-- the ledger invariant of a run: every open trade is accounted for by a
`CLOSE` record, a pending trade, or a scheduled-close entry, and every
pending or scheduled entry points back at a non-`CLOSE` trade of the log. -/
def ledgerOk (s : Backtester) : Prop :=
  countOpens s.trade_log =
    countCloses s.trade_log + s.pending_trades.length +
      s.position_close_time.length ∧
  (∀ t ∈ s.position_close_time, hasOpenAt s.trade_log (t - s.close_time_delta)) ∧
  (∀ pt ∈ s.pending_trades, hasOpenAt s.trade_log pt.1)

/-- the strategy phase preserves the ledger invariant: a successful open adds
one open trade and exactly one pending or scheduled entry pointing at it. -/
theorem check_strategy_ledger (s : Backtester) (h : ledgerOk s) :
    ledgerOk (s.check_strategy).1 := by
  rcases check_strategy_cases s with hc | ⟨cur, p, a, cap, hidx, hp, ha, hc⟩
  · rw [hc]
    exact h
  · rw [hc]
    obtain ⟨hb, hsched, hpend⟩ := h
    have hane : a ≠ Action.CLOSE := by
      rcases ha with rfl | rfl <;> simp
    rcases update_position_close_time_spec
        { s with capital := cap, trade_log := s.trade_log ++ [⟨cur, a, p, cap⟩] }
        a cur hidx with hu | hu
    · rw [hu]
      refine ⟨?_, ?_, ?_⟩
      · show countOpens (s.trade_log ++ [⟨cur, a, p, cap⟩]) =
          countCloses (s.trade_log ++ [⟨cur, a, p, cap⟩]) +
            (s.pending_trades ++ [(cur, a)]).length +
            s.position_close_time.length
        rw [countOpens_append, countCloses_append, countOpens_single _ hane,
          countCloses_single _ hane, List.length_append]
        simp only [List.length_singleton]
        omega
      · intro t ht
        exact hasOpenAt_append_left _ _ _ (hsched t ht)
      · intro pt hpt
        rcases List.mem_append.mp hpt with hl | hr
        · exact hasOpenAt_append_left _ _ _ (hpend pt hl)
        · have : pt = (cur, a) := List.mem_singleton.mp hr
          subst this
          exact hasOpenAt_appended s.trade_log ⟨cur, a, p, cap⟩ hane
    · rw [hu]
      refine ⟨?_, ?_, ?_⟩
      · show countOpens (s.trade_log ++ [⟨cur, a, p, cap⟩]) =
          countCloses (s.trade_log ++ [⟨cur, a, p, cap⟩]) +
            s.pending_trades.length +
            (s.position_close_time ++ [cur + s.close_time_delta]).length
        rw [countOpens_append, countCloses_append, countOpens_single _ hane,
          countCloses_single _ hane, List.length_append]
        simp only [List.length_singleton]
        omega
      · intro t ht
        rcases List.mem_append.mp ht with hl | hr
        · exact hasOpenAt_append_left _ _ _ (hsched t hl)
        · have : t = cur + s.close_time_delta := List.mem_singleton.mp hr
          subst this
          have harg : cur + s.close_time_delta - s.close_time_delta = cur := by
            omega
          rw [harg]
          exact hasOpenAt_appended s.trade_log ⟨cur, a, p, cap⟩ hane
      · intro pt hpt
        exact hasOpenAt_append_left _ _ _ (hpend pt hpt)

/-- the scheduled-close phase preserves the ledger invariant: when the branch
fires, one `CLOSE` record is appended and one scheduled entry removed. -/
theorem closePhase_ledger (s : Backtester) (cur : Int) (p : ℚ)
    (hidx : s.current_index = some cur) (hp : priceAt s.data cur = some p)
    (h : ledgerOk s) : ledgerOk s.closePhase := by
  unfold Backtester.closePhase
  rw [hidx]
  show ledgerOk (if cur ∈ s.position_close_time then _ else s)
  split_ifs with hmem
  · obtain ⟨hb, hsched, hpend⟩ := h
    obtain ⟨ho, hcl, ⟨ext, hext⟩⟩ :=
      close_position_success s cur 1 p hp (hsched cur hmem)
    obtain ⟨f1, f2, f3, f4, f5, f6, f7, f8⟩ := close_position_frame s cur 1
    refine ⟨?_, ?_, ?_⟩
    · show countOpens (s.close_position cur 1).trade_log =
        countCloses (s.close_position cur 1).trade_log +
          (s.close_position cur 1).pending_trades.length +
          ((s.close_position cur 1).position_close_time.erase cur).length
      rw [ho, hcl, f1, f2, List.length_erase_of_mem hmem]
      have hlen := List.length_pos_of_mem hmem
      omega
    · intro t ht
      have ht' : t ∈ s.position_close_time.erase cur := by
        rw [← f1]
        exact ht
      have ht2 : t ∈ s.position_close_time := List.mem_of_mem_erase ht'
      show hasOpenAt (s.close_position cur 1).trade_log
        (t - (s.close_position cur 1).close_time_delta)
      rw [hext, f6]
      exact hasOpenAt_append_left _ _ _ (hsched t ht2)
    · intro pt hpt
      have hpt' : pt ∈ s.pending_trades := by
        rw [← f2]
        exact hpt
      show hasOpenAt (s.close_position cur 1).trade_log pt.1
      rw [hext]
      exact hasOpenAt_append_left _ _ _ (hpend pt hpt')
  · exact h

/-- the settlement phase preserves the ledger invariant: when it fires, every
pending trade is closed and the pending list emptied. -/
theorem settlePhase_ledger (s : Backtester) (cur : Int) (p : ℚ)
    (hidx : s.current_index = some cur) (hp : priceAt s.data cur = some p)
    (h : ledgerOk s) : ledgerOk s.settlePhase := by
  unfold Backtester.settlePhase
  rcases hpt : s.pending_trades with _ | ⟨pt, rest⟩
  · rcases hd : s.current_date with _ | d <;> exact h
  · rcases hd : s.current_date with _ | d
    · exact h
    · show ledgerOk (if dateOf pt.1 = d - 1 then s.settle_pending_positions else s)
      split_ifs with hdate
      · obtain ⟨hb, hsched, hpend⟩ := h
        obtain ⟨ho, hcl, ⟨ext, hext⟩⟩ := settle_ledger s cur p hidx hp hpend
        obtain ⟨sf1, sf2, sf3, sf4, sf5, sf6⟩ := settle_frame s
        refine ⟨?_, ?_, ?_⟩
        · rw [ho, hcl, sf1, sf2]
          simp only [List.length_nil]
          omega
        · intro t ht
          have ht' : t ∈ s.position_close_time := by
            rw [← sf2]
            exact ht
          rw [hext, sf6]
          exact hasOpenAt_append_left _ _ _ (hsched t ht')
        · intro pt' hpt'
          rw [sf1] at hpt'
          exact absurd hpt' (List.not_mem_nil pt')
      · exact h

/-- the whole loop body preserves the ledger invariant at any tick whose
timestamp carries a price. -/
theorem stepBody_ledger (s : Backtester) (cur : Int) (p : ℚ)
    (hidx : s.current_index = some cur) (hp : priceAt s.data cur = some p)
    (h : ledgerOk s) : ledgerOk s.stepBody := by
  unfold Backtester.stepBody
  have h1 := check_strategy_ledger s h
  obtain ⟨c1, c2, c3, c4, c5, c6⟩ := check_strategy_frame s
  have hidx1 : (s.check_strategy).1.current_index = some cur := c1.trans hidx
  have hp1 : priceAt (s.check_strategy).1.data cur = some p := by
    rw [c3]
    exact hp
  have h2 := closePhase_ledger _ cur p hidx1 hp1 h1
  obtain ⟨k1, k2, k3, k4⟩ := closePhase_clock (s.check_strategy).1
  have hidx2 : ((s.check_strategy).1.closePhase).current_index = some cur :=
    k1.trans hidx1
  have hp2 : priceAt ((s.check_strategy).1.closePhase).data cur = some p := by
    rw [k3]
    exact hp1
  exact settlePhase_ledger _ cur p hidx2 hp2 h2

/-- `next` with an unseated clock, evaluated. -/
theorem next_eval_none (s : Backtester) (h2 : s.current_index = none) :
    s.next =
      match s.data with
      | [] => (s, false)
      | (t, _) :: _ =>
        ({ s with current_index := some t, current_date := some (dateOf t) },
         true) := by
  unfold Backtester.next
  simp only [h2]

/-- `next` with a seated clock, evaluated. -/
theorem next_eval_some (s : Backtester) (cur : Int)
    (h2 : s.current_index = some cur) :
    s.next =
      match (s.data.map Prod.fst).findIdx? (fun x => decide (x = cur)) with
      | none => (s, false)
      | some pos =>
        if pos < s.data.length - 1 then
          match s.data[pos + 1]? with
          | some (t, _) =>
            ({ s with current_index := some t, current_date := some (dateOf t) },
             true)
          | none => (s, false)
        else (s, false) := by
  unfold Backtester.next
  simp only [h2]

/-- `next` with a seated clock and a located position, evaluated. -/
theorem next_eval_pos (s : Backtester) (cur : Int) (pos : Nat)
    (h2 : s.current_index = some cur)
    (hf : (s.data.map Prod.fst).findIdx? (fun x => decide (x = cur)) = some pos) :
    s.next =
      if pos < s.data.length - 1 then
        match s.data[pos + 1]? with
        | some (t, _) =>
          ({ s with current_index := some t, current_date := some (dateOf t) },
           true)
        | none => (s, false)
      else (s, false) := by
  unfold Backtester.next
  simp only [h2, hf]

/-- a falsy `next` leaves the state untouched. -/
theorem next_false_spec (s s1 : Backtester) (h : s.next = (s1, false)) : s1 = s := by
  rcases h2 : s.current_index with _ | cur
  · rw [next_eval_none s h2] at h
    rcases hd : s.data with _ | ⟨⟨t, pr⟩, rest⟩ <;> rw [hd] at h
    · exact (congrArg Prod.fst h).symm
    · exact absurd (congrArg Prod.snd h) (by simp)
  · rcases hf : (s.data.map Prod.fst).findIdx? (fun x => decide (x = cur))
        with _ | pos
    · rw [next_eval_some s cur h2, hf] at h
      exact (congrArg Prod.fst h).symm
    · rw [next_eval_pos s cur pos h2 hf] at h
      split_ifs at h with hlt
      · rcases hg : s.data[pos + 1]? with _ | ⟨t, pr⟩ <;> rw [hg] at h
        · exact (congrArg Prod.fst h).symm
        · exact absurd (congrArg Prod.snd h) (by simp)
      · exact (congrArg Prod.fst h).symm

/-- a truthy `next` only moves the clock, to a timestamp that carries a
price. -/
theorem next_true_spec (s s1 : Backtester) (h : s.next = (s1, true)) :
    s1.trade_log = s.trade_log ∧ s1.pending_trades = s.pending_trades ∧
    s1.position_close_time = s.position_close_time ∧
    s1.close_time_delta = s.close_time_delta ∧ s1.data = s.data ∧
    ∃ t p, s1.current_index = some t ∧ priceAt s.data t = some p := by
  have hprice : ∀ t pr, (t, pr) ∈ s.data → ∃ p, priceAt s.data t = some p := by
    intro t pr hmem
    have hsome : (s.data.find? (fun pr' => decide (pr'.1 = t))).isSome = true := by
      rw [List.find?_isSome]
      exact ⟨(t, pr), hmem, by simp⟩
    rcases hfind : s.data.find? (fun pr' => decide (pr'.1 = t)) with _ | x
    · rw [hfind] at hsome
      simp at hsome
    · exact ⟨x.2, by simp [priceAt, hfind]⟩
  rcases h2 : s.current_index with _ | cur
  · rw [next_eval_none s h2] at h
    rcases hd : s.data with _ | ⟨⟨t, pr⟩, rest⟩ <;> rw [hd] at h
    · exact absurd (congrArg Prod.snd h) (by simp)
    · have hs1 := (congrArg Prod.fst h).symm
      subst hs1
      obtain ⟨p, hp⟩ := hprice t pr (by rw [hd]; exact List.mem_cons_self _ _)
      exact ⟨rfl, rfl, rfl, rfl, rfl, t, p, rfl, hd ▸ hp⟩
  · rcases hf : (s.data.map Prod.fst).findIdx? (fun x => decide (x = cur))
        with _ | pos
    · rw [next_eval_some s cur h2, hf] at h
      exact absurd (congrArg Prod.snd h) (by simp)
    · rw [next_eval_pos s cur pos h2 hf] at h
      split_ifs at h with hlt
      · rcases hg : s.data[pos + 1]? with _ | ⟨t, pr⟩ <;> rw [hg] at h
        · exact absurd (congrArg Prod.snd h) (by simp)
        · have hs1 := (congrArg Prod.fst h).symm
          subst hs1
          obtain ⟨p, hp⟩ := hprice t pr (List.getElem?_mem hg)
          exact ⟨rfl, rfl, rfl, rfl, rfl, t, p, rfl, hp⟩
      · exact absurd (congrArg Prod.snd h) (by simp)

/-- the fuelled loop preserves the ledger invariant. -/
theorem runAux_ledger (n : Nat) (s : Backtester) (h : ledgerOk s) :
    ledgerOk (Backtester.runAux n s) := by
  induction n generalizing s with
  | zero => exact h
  | succ n ih =>
    rcases hn : s.next with ⟨s1, b⟩
    cases b
    · have hs1 : s1 = s := next_false_spec s s1 hn
      have he : Backtester.runAux (n + 1) s = s1 := by
        simp only [Backtester.runAux]
        rw [hn]
      rw [he, hs1]
      exact h
    · obtain ⟨l1, l2, l3, l4, l5, t, p, hidx, hp⟩ := next_true_spec s s1 hn
      have h1 : ledgerOk s1 := by
        obtain ⟨hb, hsched, hpend⟩ := h
        refine ⟨?_, ?_, ?_⟩
        · rw [l1, l2, l3]
          exact hb
        · intro u hu
          rw [l1, l4]
          exact hsched u (l3 ▸ hu)
        · intro pt hpt
          rw [l1]
          exact hpend pt (l2 ▸ hpt)
      have hp1 : priceAt s1.data t = some p := by
        rw [l5]
        exact hp
      have he : Backtester.runAux (n + 1) s = Backtester.runAux n s1.stepBody := by
        simp only [Backtester.runAux]
        rw [hn]
      rw [he]
      exact ih _ (stepBody_ledger s1 t p hidx hp1 h1)

/-- the strategy of the C5 counterexample: a LONG signal at the first tick. -/
def stratC5 : Strategy := ⟨fun t => decide (t = 570), fun _ => false⟩

/-- two ticks one minute apart: a holding duration of three minutes schedules
a close at a timestamp that is never a tick. -/
def dataC5 : List (Int × ℚ) := [(570, 100), (571, 102)]

/-- engine of the C5 counterexample. -/
def stC5 : Backtester := Backtester.init stratC5 dataC5 10000 2 3

set_option maxHeartbeats 4000000 in
/-- C5 counterexample: a trade opened at 570 gets its close scheduled for 573,
which is not a tick of the series; the run ends with one open entry, no
`CLOSE` entry and no pending trade, so the claimed balance
`closes = opens - pending` fails (0 ≠ 1), the scheduled entry 573 remaining
in the set. -/
theorem C5_counterexample :
    countOpens (Backtester.run stC5).trade_log = 1 ∧
    countCloses (Backtester.run stC5).trade_log = 0 ∧
    (Backtester.run stC5).pending_trades.length = 0 ∧
    (Backtester.run stC5).position_close_time = [573] ∧
    countCloses (Backtester.run stC5).trade_log ≠
      countOpens (Backtester.run stC5).trade_log -
        (Backtester.run stC5).pending_trades.length := by
  norm_num [Backtester.run, Backtester.runAux, Backtester.stepBody,
    Backtester.closePhase, Backtester.settlePhase, Backtester.next,
    Backtester.check_strategy, Backtester.open_position,
    Backtester.update_position_close_time, Backtester.close_position,
    Backtester.get_trade_by_time, Backtester.close_trade,
    Backtester.settle_pending_positions, Backtester.init, stC5, stratC5, dataC5,
    priceAt, dateOf, timeOfDay, minutesPerDay, countCloses, countOpens,
    List.find?, List.findIdx?, List.erase, List.foldl, List.filter]

/-- C5 (amended): at the end of any run from a freshly initialised engine, the
number of open (`BUY`/`SELL`) entries of the trade log equals the number of
`CLOSE` entries plus the unsettled pending trades plus the scheduled-close
entries that were never reached; the claimed balance holds exactly up to the
leftover scheduled-close entries. -/
theorem C5_ledger_balance (strat : Strategy) (data : List (Int × ℚ))
    (cap comm : ℚ) (delta : Int) :
    countOpens ((Backtester.init strat data cap comm delta).run).trade_log =
      countCloses ((Backtester.init strat data cap comm delta).run).trade_log +
        ((Backtester.init strat data cap comm delta).run).pending_trades.length +
        ((Backtester.init strat data cap comm delta).run).position_close_time.length := by
  have h0 : ledgerOk (Backtester.init strat data cap comm delta) := by
    refine ⟨?_, ?_, ?_⟩
    · simp [Backtester.init, countOpens, countCloses]
    · intro t ht
      exact absurd ht (List.not_mem_nil t)
    · intro pt hpt
      exact absurd hpt (List.not_mem_nil pt)
  exact (runAux_ledger _ _ h0).1

end Backtest
